import Mathlib

/-!
# Verification of the segmentation post-processing pipeline

Shallow embedding of `src/backend/models/segmentation.py`
(`SemanticSegmentationModel.segment_image` and
`SemanticSegmentationModel.create_colored_mask`) together with the
fallback logic of its callers in `src/backend/main.py`.

Modelling conventions:
* numpy `uint8` arrays become `List`-based grids of `Nat` with explicit
  `% 256` where the code performs `astype(np.uint8)`;
* the process-wide numpy random state becomes an explicit stream
  `RNG := Nat → Nat` of raw draws that is threaded through every call,
  so "two sequential calls" is modelled by feeding the second call the
  stream returned by the first;
* the pretrained network together with its preprocessing and the argmax
  step (treated as opaque by the spec) becomes an abstract function
  `Model := Image → Except SegError ClassMap`;
* Python exceptions become `Except SegError` / `Option` results; the
  blanket `except Exception` of `segment_image` becomes a `match` that
  maps every `Except.error` to the original image.
-/

namespace Seg

/-- An RGB triple (red, green, blue), each channel a byte value. -/
abbrev RGB := Nat × Nat × Nat

/-- A 2D grid of per-pixel integer class ids
(`output_predictions` in `segment_image`, the `predictions` argument of
`create_colored_mask`). -/
abbrev ClassMap := List (List Nat)

/-- A 2D grid of RGB pixels (the `colored_mask` array). -/
abbrev ColorGrid := List (List RGB)

/-- The process-wide numpy random state, modelled as a stream of raw
natural-number draws.  `np.random.randint` consumes the head and
advances the stream. -/
abbrev RNG := Nat → Nat

/-- Advance the random stream by one draw. -/
def RNG.next (s : RNG) : RNG := fun n => s (n + 1)

/-- `np.random.randint(low, high)`: a draw from the half-open interval
`[low, high)` — numpy's upper bound is exclusive.  The raw stream value
is reduced modulo the interval width, which is how a uniform raw source
yields a uniform value in `[low, high)`. -/
def npRandint (lo hi : Nat) (s : RNG) : Nat × RNG :=
  (lo + s 0 % (hi - lo), s.next)

/-- The fixed 21-entry PASCAL VOC palette (`colors` in
`create_colored_mask`, lines 132–154). -/
def fixedColors : List RGB :=
  [ (0, 0, 0),       -- background
    (128, 0, 0),     -- aeroplane
    (0, 128, 0),     -- bicycle
    (128, 128, 0),   -- bird
    (0, 0, 128),     -- boat
    (128, 0, 128),   -- bottle
    (0, 128, 128),   -- bus
    (128, 128, 128), -- car
    (64, 0, 0),      -- cat
    (192, 0, 0),     -- chair
    (64, 128, 0),    -- cow
    (192, 128, 0),   -- dining table
    (64, 0, 128),    -- dog
    (192, 0, 128),   -- horse
    (64, 128, 128),  -- motorbike
    (192, 128, 128), -- person
    (0, 64, 0),      -- potted plant
    (128, 64, 0),    -- sheep
    (0, 192, 0),     -- sofa
    (128, 192, 0),   -- train
    (0, 64, 128) ]   -- tv/monitor

/-- One iteration body of the palette-extension loop: the list
comprehension `[np.random.randint(0, 255) for _ in range(3)]` draws the
three channels in order from the shared random state. -/
def drawColor (s : RNG) : RGB × RNG :=
  let (r, s1) := npRandint 0 255 s
  let (g, s2) := npRandint 0 255 s1
  let (b, s3) := npRandint 0 255 s2
  ((r, g, b), s3)

/-- The loop `while len(colors) <= predictions.max(): colors.append(...)`
(line 157), written with structural fuel so that it computes.  Each
iteration appends exactly one color, so with fuel
`target + 1 - cs.length` the fuel runs out exactly when the guard
`len(colors) <= target` first fails; `extendColors_length` below proves
the loop is exited with the guard false, i.e. the fuel is never the
reason the loop stops. -/
def extendLoop : Nat → Nat → List RGB → RNG → List RGB × RNG
  | 0, _, cs, s => (cs, s)
  | fuel + 1, target, cs, s =>
    if cs.length ≤ target then
      let (c, s') := drawColor s
      extendLoop fuel target (cs ++ [c]) s'
    else (cs, s)

/-- The palette-extension loop with its exact fuel. -/
def extendColors (target : Nat) (cs : List RGB) (s : RNG) : List RGB × RNG :=
  extendLoop (target + 1 - cs.length) target cs s

/-- `predictions.max()` — numpy's `max` over all elements of the 2D
array; it raises `ValueError` on an array with no elements, modelled as
`none`. -/
def maxOfGrid (preds : ClassMap) : Option Nat :=
  match preds.flatten with
  | [] => none
  | x :: xs => some ((x :: xs).foldl max 0)

/-- `colored_mask[predictions == class_id] = colors[class_id]` for one
`class_id`: every cell whose prediction equals `cid` is overwritten with
`color`, every other cell keeps its current value. -/
def applyClass (preds : ClassMap) (cid : Nat) (color : RGB) (mask : ColorGrid) :
    ColorGrid :=
  (preds.zip mask).map fun pr =>
    (pr.1.zip pr.2).map fun pv => if pv.1 = cid then color else pv.2

/-- The painting loop of `create_colored_mask` (lines 160–166):
`colored_mask = np.zeros((h, w, 3))` followed by
`for class_id in range(len(colors)): colored_mask[predictions == class_id] = colors[class_id]`. -/
def paintLoop (colors : List RGB) (preds : ClassMap) : ColorGrid :=
  (List.range colors.length).foldl
    (fun mask cid => applyClass preds cid (colors.getD cid (0, 0, 0)) mask)
    (preds.map fun row => row.map fun _ => ((0, 0, 0) : RGB))

/-- `create_colored_mask(predictions)` (lines 121–168).  The fixed
palette is a fresh local list on every call; it is extended with fresh
random draws up to `predictions.max()` and then applied as a lookup
table.  `predictions.max()` on an empty grid raises (`none`); the random
state is threaded through and returned. -/
def create_colored_mask (s : RNG) (preds : ClassMap) : Option ColorGrid × RNG :=
  match maxOfGrid preds with
  | none => (none, s)
  | some mx =>
    let (colors, s') := extendColors mx fixedColors s
    (some (paintLoop colors preds), s')

/-- An image: a numpy pixel array together with its declared geometry.
`data` is `height` rows of `width` pixels of `channels` byte values
(`Image.wf` below states exactly that).  PIL's `image.size` is
`(width, height)`. -/
structure Image where
  width : Nat
  height : Nat
  channels : Nat
  data : List (List (List Nat))
deriving DecidableEq, Repr

/-- The geometry of `data` matches the declared fields. -/
def Image.wf (img : Image) : Prop :=
  img.data.length = img.height ∧
  ∀ row ∈ img.data, row.length = img.width ∧
    ∀ px ∈ row, px.length = img.channels

/-- All sample values fit in a byte (numpy `uint8` contents). -/
def Image.bytes (img : Image) : Prop :=
  ∀ row ∈ img.data, ∀ px ∈ row, ∀ v ∈ px, v < 256

/-- Pixel access with numpy-style defaults: `img.pix i j` is the pixel
at row `i`, column `j`. -/
def Image.pix (img : Image) (i j : Nat) : List Nat :=
  (img.data.getD i []).getD j []

/-- Sample access: `img.val i j k` is channel `k` of the pixel at row
`i`, column `j`. -/
def Image.val (img : Image) (i j k : Nat) : Nat :=
  ((img.data.getD i []).getD j []).getD k 0

/-- The error taxonomy of the pipeline (§7 of the spec): inference
exceptions, zero-area geometry (`cv2.error` from `cv2.resize`), the
`ValueError` that `predictions.max()` raises on an empty class map, and
`cv2.addWeighted`'s shape-mismatch error. -/
inductive SegError where
  | inferenceFailed
  | invalidGeometry
  | emptyClassMap
  | dimensionMismatch
deriving DecidableEq, Repr

/-- The opaque model wrapped by the pipeline: preprocessing, the network
forward pass and the per-pixel argmax (lines 66–80), abstracted — as §1
of the spec directs — into a single function from the input image to a
class map, which may fail with any exception inference can raise. -/
abbrev Model := Image → Except SegError ClassMap

/-- `cv2.resize(mask, (w, h))` (line 89).  OpenCV raises `cv2.error`
when either target dimension or either source dimension is zero; the
resampling kernel (OpenCV defaults to bilinear) is modelled as
nearest-neighbour — the theorems below use only the failure condition
and the output geometry, on which every resampling kernel agrees. -/
def cvResize (g : ColorGrid) (w h : Nat) : Except SegError ColorGrid :=
  let sh := g.length
  let sw := (g.headD []).length
  if w = 0 ∨ h = 0 ∨ sh = 0 ∨ sw = 0 then
    .error .invalidGeometry
  else
    .ok <| (List.range h).map fun i => (List.range w).map fun j =>
      (g.getD (min (sh - 1) (i * sh / h)) []).getD (min (sw - 1) (j * sw / w)) (0, 0, 0)

/-- The channel-normalization block of `segment_image` (lines 92–96):
`len(shape) == 2` (grayscale) → `cv2.cvtColor(..., COLOR_GRAY2RGB)`,
which replicates the single value into three identical channels;
4 channels → `cv2.cvtColor(..., COLOR_RGBA2RGB)`, which drops the alpha
channel; anything else passes through unchanged. -/
def normalizeChannels (img : Image) : Image :=
  if img.channels = 1 then
    { width := img.width, height := img.height, channels := 3,
      data := img.data.map fun row => row.map fun px =>
        [px.headD 0, px.headD 0, px.headD 0] }
  else if img.channels = 4 then
    { width := img.width, height := img.height, channels := 3,
      data := img.data.map fun row => row.map fun px => px.take 3 }
  else img

/-- `astype(np.uint8)`: every sample reduced modulo 256. -/
def astypeU8 (img : Image) : Image :=
  { img with data := img.data.map fun row => row.map fun px => px.map (· % 256) }

/-- Round to nearest and saturate into the byte range, as
`cv2.addWeighted` does when producing a `uint8` result.  (`round` is
round-half-up; with the weights used in this file the exact value is
never a half-integer, so the choice of tie-breaking is immaterial.) -/
def satRound (x : ℚ) : Nat :=
  (max 0 (min 255 (round x))).toNat

/-- `cv2.addWeighted(a, α, b, β, γ)`: per-sample
`saturate(round(α·a + β·b + γ))`; raises if the two arrays do not share
width, height and channel count. -/
def addWeighted (a : Image) (α : ℚ) (b : Image) (β : ℚ) (γ : ℚ) :
    Except SegError Image :=
  if a.width = b.width ∧ a.height = b.height ∧ a.channels = b.channels then
    .ok { width := a.width, height := a.height, channels := a.channels,
          data := List.zipWith
            (fun r1 r2 => List.zipWith
              (fun p1 p2 => List.zipWith
                (fun v1 v2 : Nat => satRound (α * v1 + β * v2 + γ)) p1 p2) r1 r2)
            a.data b.data }
  else .error .dimensionMismatch

/-- The overlay step (lines 102–105):
`cv2.addWeighted(original.astype(uint8), alpha, mask.astype(uint8), 1 - alpha, 0)`. -/
def blend (α : ℚ) (a b : Image) : Except SegError Image :=
  addWeighted (astypeU8 a) α (astypeU8 b) (1 - α) 0

/-- A colored-mask grid packaged as a 3-channel image (the resized
`segmentation_mask` array entering `cv2.addWeighted`).  The dead branch
at lines 99–100 (`if len(segmentation_mask.shape) == 2`) never fires:
`create_colored_mask` always returns an `(h, w, 3)` array and
`cv2.resize` preserves the channel count, so the mask is structurally
3-channel here. -/
def gridToImage (g : ColorGrid) : Image :=
  { width := (g.headD []).length, height := g.length, channels := 3,
    data := g.map fun row => row.map fun c => [c.1, c.2.1, c.2.2] }

/-- The body of `segment_image`'s `try` block (lines 58–113): inference,
mask rendering, resize back to `image.size = (width, height)`, channel
normalization of the original, and the alpha-0.6 overlay.  Any stage's
exception surfaces as `Except.error`; the random state is threaded
through. -/
def segmentPipeline (model : Model) (s : RNG) (img : Image) :
    Except SegError Image × RNG :=
  match model img with
  | .error e => (.error e, s)
  | .ok preds =>
    match create_colored_mask s preds with
    | (none, s') => (.error .emptyClassMap, s')
    | (some mask, s') =>
      match cvResize mask img.width img.height with
      | .error e => (.error e, s')
      | .ok resized =>
        let original := normalizeChannels img
        match blend (3/5) original (gridToImage resized) with
        | .error e => (.error e, s')
        | .ok overlay => (.ok overlay, s')

/-- `segment_image` (lines 44–119): if the model is not loaded, return
the original image (lines 54–56); otherwise run the pipeline and, on any
exception, return the original image instead of propagating the error
(lines 115–119).  The result type `Image × RNG` (no `Except`) reflects
that this function never raises. -/
def segment_image (model : Option Model) (s : RNG) (img : Image) :
    Image × RNG :=
  match model with
  | none => (img, s)
  | some m =>
    match segmentPipeline m s img with
    | (.ok out, s') => (out, s')
    | (.error _, s') => (img, s')

/-- Class id at row `i`, column `j` of a class map (0 out of bounds). -/
def classAt (preds : ClassMap) (i j : Nat) : Nat :=
  (preds.getD i []).getD j 0

/-- Color at row `i`, column `j` of a colored mask (black out of bounds). -/
def cellAt (g : ColorGrid) (i j : Nat) : RGB :=
  (g.getD i []).getD j (0, 0, 0)

/-- A class map and a colored mask have identical geometry. -/
def sameShape (preds : ClassMap) (mask : ColorGrid) : Prop :=
  preds.length = mask.length ∧
  ∀ i, (preds.getD i []).length = (mask.getD i []).length

/-- A model whose inference always raises — the scripted failing model
of end-to-end scenario 2. -/
def failingModel : Model := fun _ => .error .inferenceFailed

/-- A model that always predicts a 1×1 all-background class map. -/
def bgModel : Model := fun _ => .ok [[0]]

/-- A concrete 1×1 black RGB image. -/
def blackPx : Image := ⟨1, 1, 3, [[[0, 0, 0]]]⟩

/-- A concrete zero-width image (width 0, height 2): a zero-area resize
target. -/
def zeroWidthImg : Image := ⟨0, 2, 3, [[], []]⟩

/-- The identity raw random stream, used as a concrete process random
state. -/
def idRNG : RNG := fun n => n

/-! ## Helper lemmas -/

/-- `getD` through `map`, at an in-bounds index. -/
lemma getD_map {A B : Type} (f : A → B) (l : List A) (i : Nat)
    (hi : i < l.length) (d : B) (d' : A) :
    (l.map f).getD i d = f (l.getD i d') := by
  rw [List.getD_eq_getElem?_getD, List.getElem?_map, List.getElem?_eq_getElem hi,
    List.getD_eq_getElem l d' hi]
  rfl

/-- `getD` through `zipWith`, at an in-bounds index. -/
lemma getD_zipWith {A B C : Type} (f : A → B → C) (l1 : List A) (l2 : List B)
    (i : Nat) (h1 : i < l1.length) (h2 : i < l2.length) (d : C) (d1 : A) (d2 : B) :
    (List.zipWith f l1 l2).getD i d = f (l1.getD i d1) (l2.getD i d2) := by
  rw [List.getD_eq_getElem?_getD, List.getElem?_zipWith, List.getElem?_eq_getElem h1,
    List.getElem?_eq_getElem h2, List.getD_eq_getElem l1 d1 h1, List.getD_eq_getElem l2 d2 h2]
  rfl

/-- `getD` through `zip`, at an in-bounds index. -/
lemma getD_zip {A B : Type} (l1 : List A) (l2 : List B)
    (i : Nat) (h1 : i < l1.length) (h2 : i < l2.length) (d1 : A) (d2 : B) :
    (l1.zip l2).getD i (d1, d2) = (l1.getD i d1, l2.getD i d2) :=
  getD_zipWith Prod.mk l1 l2 i h1 h2 (d1, d2) d1 d2

/-- `getD` on `range`, at an in-bounds index. -/
lemma getD_range (n i : Nat) (hi : i < n) (d : Nat) :
    (List.range n).getD i d = i := by
  rw [List.getD_eq_getElem?_getD, List.getElem?_range hi]
  rfl

/-- An in-bounds `getD` value is a member of the list. -/
lemma getD_mem {A : Type} (l : List A) (i : Nat) (hi : i < l.length) (d : A) :
    l.getD i d ∈ l := by
  rw [List.getD_eq_getElem l d hi]
  exact List.getElem_mem hi

/-- The extension loop, run with at least the exact fuel, stops with the
guard false: the final palette length is `max cs.length (target + 1)`,
so in particular it strictly exceeds `target`. -/
lemma extendLoop_length (fuel : Nat) :
    ∀ (target : Nat) (cs : List RGB) (s : RNG),
      target + 1 - cs.length ≤ fuel →
      ((extendLoop fuel target cs s).1).length = max cs.length (target + 1) := by
  induction fuel with
  | zero =>
    intro target cs s hfuel
    have : target + 1 ≤ cs.length := by omega
    simp [extendLoop]
    omega
  | succ fuel ih =>
    intro target cs s hfuel
    by_cases hle : cs.length ≤ target
    · have := ih target (cs ++ [(drawColor s).1]) (drawColor s).2 (by simp; omega)
      simp [extendLoop, hle, this]
      omega
    · simp [extendLoop, hle]
      omega

/-- The palette after extension has length `max cs.length (target + 1)`. -/
lemma extendColors_length (target : Nat) (cs : List RGB) (s : RNG) :
    ((extendColors target cs s).1).length = max cs.length (target + 1) :=
  extendLoop_length (target + 1 - cs.length) target cs s le_rfl

/-- The initial accumulator is below a `foldl max`. -/
lemma init_le_foldl_max (l : List Nat) : ∀ a : Nat, a ≤ l.foldl max a := by
  induction l with
  | nil => intro a; simp
  | cons x xs ih =>
    intro a
    calc a ≤ max a x := le_max_left a x
    _ ≤ xs.foldl max (max a x) := ih (max a x)
    _ = (x :: xs).foldl max a := rfl

/-- Every member of the list is below its `foldl max`. -/
lemma mem_le_foldl_max (l : List Nat) : ∀ (a x : Nat), x ∈ l → x ≤ l.foldl max a := by
  induction l with
  | nil => intro a x hx; cases hx
  | cons y ys ih =>
    intro a x hx
    rcases List.mem_cons.mp hx with h | h
    · subst h
      calc x ≤ max a x := le_max_right a x
      _ ≤ ys.foldl max (max a x) := init_le_foldl_max ys (max a x)
    · exact ih (max a y) x h

/-- `predictions.max()` bounds every element of the grid. -/
lemma maxOfGrid_le (preds : ClassMap) (mx : Nat) (hmx : maxOfGrid preds = some mx) :
    ∀ row ∈ preds, ∀ c ∈ row, c ≤ mx := by
  intro row hrow c hc
  have hmem : c ∈ preds.flatten := List.mem_flatten.mpr ⟨row, hrow, hc⟩
  unfold maxOfGrid at hmx
  cases hflat : preds.flatten with
  | nil => rw [hflat] at hmx; cases hmx
  | cons x xs =>
    rw [hflat] at hmx hmem
    have : (x :: xs).foldl max 0 = mx := by
      simpa using hmx
    rw [← this]
    exact mem_le_foldl_max (x :: xs) 0 c hmem

/-- `predictions.max()` fails exactly on a grid with no elements. -/
lemma maxOfGrid_eq_none_iff (preds : ClassMap) :
    maxOfGrid preds = none ↔ preds.flatten = [] := by
  unfold maxOfGrid
  cases preds.flatten <;> simp

/-- One row of `applyClass`, at an in-bounds column. -/
lemma applyClass_row_getD (p : List Nat) (m : List RGB) (cid : Nat) (color : RGB)
    (hlen : p.length = m.length) (j : Nat) (hj : j < p.length) :
    ((p.zip m).map fun pv => if pv.1 = cid then color else pv.2).getD j (0, 0, 0) =
      if p.getD j 0 = cid then color else m.getD j (0, 0, 0) := by
  have hjm : j < m.length := hlen ▸ hj
  have hjz : j < (p.zip m).length := by
    rw [List.length_zip]; omega
  rw [getD_map _ _ j hjz _ (0, (0, 0, 0)), getD_zip p m j hj hjm 0 (0, 0, 0)]

/-- `applyClass` preserves the grid's geometry. -/
lemma applyClass_sameShape (preds : ClassMap) (cid : Nat) (color : RGB)
    (mask : ColorGrid) (hs : sameShape preds mask) :
    sameShape preds (applyClass preds cid color mask) := by
  obtain ⟨hlen, hrow⟩ := hs
  constructor
  · rw [applyClass, List.length_map, List.length_zip]
    omega
  · intro i
    by_cases hi : i < preds.length
    · have him : i < mask.length := hlen ▸ hi
      have hiz : i < (preds.zip mask).length := by
        rw [List.length_zip]; omega
      rw [applyClass, getD_map _ _ i hiz _ ([], []),
        getD_zip preds mask i hi him [] []]
      simp only [List.length_map, List.length_zip]
      have := hrow i
      omega
    · have h1 : preds.getD i [] = [] := by
        rw [List.getD_eq_getElem?_getD, List.getElem?_eq_none (by omega)]
        rfl
      have h2 : (applyClass preds cid color mask).getD i [] = [] := by
        have : i ≥ (applyClass preds cid color mask).length := by
          rw [applyClass, List.length_map, List.length_zip]
          omega
        rw [List.getD_eq_getElem?_getD, List.getElem?_eq_none this]
        rfl
      rw [h1, h2]
      rfl

/-- Cell-level effect of `applyClass`: a cell whose prediction is `cid`
becomes `color`, every other in-bounds cell keeps its value. -/
lemma applyClass_cell (preds : ClassMap) (cid : Nat) (color : RGB)
    (mask : ColorGrid) (hs : sameShape preds mask) (i j : Nat)
    (hi : i < preds.length) (hj : j < (preds.getD i []).length) :
    cellAt (applyClass preds cid color mask) i j =
      if classAt preds i j = cid then color else cellAt mask i j := by
  obtain ⟨hlen, hrow⟩ := hs
  have him : i < mask.length := hlen ▸ hi
  have hiz : i < (preds.zip mask).length := by
    rw [List.length_zip]; omega
  rw [cellAt, applyClass, getD_map _ _ i hiz _ ([], []),
    getD_zip preds mask i hi him [] [],
    applyClass_row_getD _ _ _ _ (hrow i) j hj]
  rfl

/-- The all-zeros initial mask `np.zeros((h, w, 3))` has the class map's
geometry. -/
lemma zeros_sameShape (preds : ClassMap) :
    sameShape preds (preds.map fun row => row.map fun _ => ((0, 0, 0) : RGB)) := by
  constructor
  · rw [List.length_map]
  · intro i
    by_cases hi : i < preds.length
    · rw [getD_map _ _ i hi _ [], List.length_map]
    · have h1 : preds.getD i [] = [] := by
        rw [List.getD_eq_getElem?_getD, List.getElem?_eq_none (by omega)]
        rfl
      have h2 : ((preds.map fun row => row.map fun _ => ((0, 0, 0) : RGB)).getD i []) = [] := by
        rw [List.getD_eq_getElem?_getD, List.getElem?_eq_none (by rw [List.length_map]; omega)]
        rfl
      rw [h1, h2]
      rfl

/-- Every cell of the all-zeros initial mask is black. -/
lemma zeros_cell (preds : ClassMap) (i j : Nat) :
    cellAt (preds.map fun row => row.map fun _ => ((0, 0, 0) : RGB)) i j = (0, 0, 0) := by
  rw [cellAt]
  by_cases hi : i < preds.length
  · rw [getD_map _ _ i hi _ []]
    by_cases hj : j < (preds.getD i []).length
    · rw [getD_map _ _ j hj _ 0]
    · rw [List.getD_eq_getElem?_getD, List.getElem?_eq_none (by rw [List.length_map]; omega)]
      rfl
  · rw [List.getD_eq_getElem?_getD (l := List.map _ _),
      List.getElem?_eq_none (by rw [List.length_map]; omega)]
    rfl

/-- Folding `applyClass` over a list `L` of class ids: an in-bounds cell
ends up with its class's color if its class id occurs in `L`, and keeps
its initial value otherwise. -/
lemma foldl_applyClass_cell (colors : List RGB) (preds : ClassMap) (L : List Nat) :
    ∀ (mask : ColorGrid), sameShape preds mask →
      ∀ i j, i < preds.length → j < (preds.getD i []).length →
        cellAt (L.foldl (fun m cid => applyClass preds cid (colors.getD cid (0, 0, 0)) m) mask) i j =
          if classAt preds i j ∈ L then colors.getD (classAt preds i j) (0, 0, 0)
          else cellAt mask i j := by
  induction L with
  | nil =>
    intro mask hs i j hi hj
    simp
  | cons cid L ih =>
    intro mask hs i j hi hj
    rw [List.foldl_cons]
    rw [ih (applyClass preds cid (colors.getD cid (0, 0, 0)) mask)
      (applyClass_sameShape preds cid _ mask hs) i j hi hj,
      applyClass_cell preds cid _ mask hs i j hi hj]
    by_cases hmem : classAt preds i j ∈ L
    · simp [hmem]
    · by_cases hcid : classAt preds i j = cid
      · subst hcid
        simp [hmem]
      · simp [hmem, hcid]

/-- Folding `applyClass` preserves the grid's geometry. -/
lemma foldl_applyClass_sameShape (colors : List RGB) (preds : ClassMap) (L : List Nat) :
    ∀ (mask : ColorGrid), sameShape preds mask →
      sameShape preds
        (L.foldl (fun m cid => applyClass preds cid (colors.getD cid (0, 0, 0)) m) mask) := by
  induction L with
  | nil => intro mask hs; exact hs
  | cons cid L ih =>
    intro mask hs
    rw [List.foldl_cons]
    exact ih _ (applyClass_sameShape preds cid _ mask hs)

/-- The painting loop preserves the class map's geometry. -/
lemma paintLoop_sameShape (colors : List RGB) (preds : ClassMap) :
    sameShape preds (paintLoop colors preds) :=
  foldl_applyClass_sameShape colors preds _ _ (zeros_sameShape preds)

/-- Cell-level description of the painting loop: an in-bounds cell whose
class id is covered by the palette receives its palette color; a cell
whose class id is beyond the palette stays black. -/
lemma paintLoop_cell (colors : List RGB) (preds : ClassMap) (i j : Nat)
    (hi : i < preds.length) (hj : j < (preds.getD i []).length) :
    cellAt (paintLoop colors preds) i j =
      if classAt preds i j < colors.length then
        colors.getD (classAt preds i j) (0, 0, 0)
      else (0, 0, 0) := by
  rw [paintLoop, foldl_applyClass_cell colors preds _ _ (zeros_sameShape preds) i j hi hj,
    zeros_cell]
  by_cases h : classAt preds i j < colors.length
  · simp [h, List.mem_range]
  · simp [h, List.mem_range]

/-- Unfolding `create_colored_mask` on a non-empty class map. -/
lemma create_colored_mask_eq (s : RNG) (preds : ClassMap) (mx : Nat)
    (hmx : maxOfGrid preds = some mx) :
    create_colored_mask s preds =
      (some (paintLoop (extendColors mx fixedColors s).1 preds),
       (extendColors mx fixedColors s).2) := by
  rw [create_colored_mask, hmx]

/-- After the lazy extension every observed class id indexes into the
palette. -/
lemma classAt_lt_extended (s : RNG) (preds : ClassMap) (mx : Nat)
    (hmx : maxOfGrid preds = some mx) (i j : Nat)
    (hi : i < preds.length) (hj : j < (preds.getD i []).length) :
    classAt preds i j < ((extendColors mx fixedColors s).1).length := by
  have hrow : preds.getD i [] ∈ preds := getD_mem preds i hi []
  have hc : (preds.getD i []).getD j 0 ∈ preds.getD i [] := getD_mem _ j hj 0
  have hle : classAt preds i j ≤ mx :=
    maxOfGrid_le preds mx hmx _ hrow _ hc
  have := extendColors_length mx fixedColors s
  omega

/-- The color an in-bounds cell receives from `create_colored_mask`:
the extended palette's entry at the cell's class id. -/
lemma create_colored_mask_cell (s : RNG) (preds : ClassMap) (mx : Nat)
    (hmx : maxOfGrid preds = some mx) (mask : ColorGrid) (s' : RNG)
    (hcall : create_colored_mask s preds = (some mask, s')) (i j : Nat)
    (hi : i < preds.length) (hj : j < (preds.getD i []).length) :
    cellAt mask i j =
      ((extendColors mx fixedColors s).1).getD (classAt preds i j) (0, 0, 0) := by
  have heq := create_colored_mask_eq s preds mx hmx
  rw [hcall] at heq
  have hmask : mask = paintLoop (extendColors mx fixedColors s).1 preds := by
    have := congrArg Prod.fst heq
    simpa using this
  subst hmask
  rw [paintLoop_cell _ preds i j hi hj, if_pos (classAt_lt_extended s preds mx hmx i j hi hj)]

/-- A map that fixes every element of a list is the identity on it. -/
lemma map_eq_self {A : Type} (f : A → A) :
    ∀ (l : List A), (∀ x ∈ l, f x = x) → l.map f = l := by
  intro l
  induction l with
  | nil => intro _; rfl
  | cons x xs ih =>
    intro h
    rw [List.map_cons, h x (by simp), ih fun y hy => h y (by simp [hy])]

/-- `astype(np.uint8)` is the identity on an image whose samples are
already bytes. -/
lemma astypeU8_eq_self (img : Image) (hb : img.bytes) : astypeU8 img = img := by
  rw [astypeU8]
  have : img.data.map (fun row => row.map fun px => px.map (· % 256)) = img.data := by
    apply map_eq_self
    intro row hrow
    apply map_eq_self
    intro px hpx
    apply map_eq_self
    intro v hv
    exact Nat.mod_eq_of_lt (hb row hrow px hpx v hv)
  rw [this]

/-- `zipWith` collapses to its left argument when `f` always returns it. -/
lemma zipWith_eq_left {A B : Type} (f : A → B → A) :
    ∀ (l1 : List A) (l2 : List B), l1.length = l2.length →
      (∀ x ∈ l1, ∀ y ∈ l2, f x y = x) → List.zipWith f l1 l2 = l1 := by
  intro l1
  induction l1 with
  | nil => intro l2 _ _; rfl
  | cons x xs ih =>
    intro l2 hlen h
    cases l2 with
    | nil => cases hlen
    | cons y ys =>
      rw [List.zipWith_cons_cons, h x (by simp) y (by simp),
        ih ys (by simpa using hlen) fun a ha b hb => h a (by simp [ha]) b (by simp [hb])]

/-- `zipWith` collapses to its right argument when `f` always returns it. -/
lemma zipWith_eq_right {A B : Type} (f : A → B → B) :
    ∀ (l1 : List A) (l2 : List B), l1.length = l2.length →
      (∀ x ∈ l1, ∀ y ∈ l2, f x y = y) → List.zipWith f l1 l2 = l2 := by
  intro l1
  induction l1 with
  | nil =>
    intro l2 hlen _
    cases l2 with
    | nil => rfl
    | cons y ys => cases hlen
  | cons x xs ih =>
    intro l2 hlen h
    cases l2 with
    | nil => cases hlen
    | cons y ys =>
      rw [List.zipWith_cons_cons, h x (by simp) y (by simp),
        ih ys (by simpa using hlen) fun a ha b hb => h a (by simp [ha]) b (by simp [hb])]

/-- Rounding a byte through `satRound` returns it unchanged. -/
lemma satRound_natCast (v : Nat) (hv : v < 256) : satRound (v : ℚ) = v := by
  rw [satRound, round_natCast]
  omega

/-- Row lengths of a well-formed image. -/
lemma Image.wf_row_length {img : Image} (h : img.wf) (i : Nat) (hi : i < img.height) :
    (img.data.getD i []).length = img.width := by
  have hlen : i < img.data.length := by rw [h.1]; omega
  exact (h.2 _ (getD_mem img.data i hlen [])).1

/-- Pixel lengths of a well-formed image. -/
lemma Image.wf_px_length {img : Image} (h : img.wf) (i j : Nat)
    (hi : i < img.height) (hj : j < img.width) :
    ((img.data.getD i []).getD j []).length = img.channels := by
  have hlen : i < img.data.length := by rw [h.1]; omega
  have hrow := h.2 _ (getD_mem img.data i hlen [])
  have hjr : j < (img.data.getD i []).length := by rw [hrow.1]; omega
  exact hrow.2 _ (getD_mem _ j hjr [])

/-- Per-sample description of `cv2.addWeighted` on well-formed inputs of
equal geometry. -/
lemma addWeighted_val (a : Image) (α : ℚ) (b : Image) (β γ : ℚ)
    (hwa : a.wf) (hwb : b.wf)
    (hw : a.width = b.width) (hh : a.height = b.height) (hc : a.channels = b.channels)
    (out : Image) (hout : addWeighted a α b β γ = .ok out) (i j k : Nat)
    (hi : i < a.height) (hj : j < a.width) (hk : k < a.channels) :
    out.val i j k = satRound (α * a.val i j k + β * b.val i j k + γ) := by
  rw [addWeighted, if_pos ⟨hw, hh, hc⟩] at hout
  have hdout := congrArg Image.data (Except.ok.inj hout)
  have hia : i < a.data.length := by rw [hwa.1]; omega
  have hib : i < b.data.length := by rw [hwb.1]; omega
  have hja : j < (a.data.getD i []).length := by rw [Image.wf_row_length hwa i hi]; omega
  have hjb : j < (b.data.getD i []).length := by
    rw [Image.wf_row_length hwb i (by omega)]; omega
  have hka : k < ((a.data.getD i []).getD j []).length := by
    rw [Image.wf_px_length hwa i j hi hj]; omega
  have hkb : k < ((b.data.getD i []).getD j []).length := by
    rw [Image.wf_px_length hwb i j (by omega) (by omega)]; omega
  rw [Image.val, ← hdout,
    getD_zipWith _ a.data b.data i hia hib _ [] [],
    getD_zipWith _ _ _ j hja hjb _ [] [],
    getD_zipWith _ _ _ k hka hkb _ 0 0]
  rfl

/-- `headD` is `getD` at index zero. -/
lemma headD_eq_getD_zero {A : Type} (l : List A) (d : A) : l.headD d = l.getD 0 d := by
  cases l <;> rfl

/-- The geometry fields of an `addWeighted` result. -/
lemma addWeighted_fields (a : Image) (α : ℚ) (b : Image) (β γ : ℚ)
    (out : Image) (hout : addWeighted a α b β γ = .ok out) :
    out.width = a.width ∧ out.height = a.height ∧ out.channels = a.channels := by
  rw [addWeighted] at hout
  by_cases hcond : a.width = b.width ∧ a.height = b.height ∧ a.channels = b.channels
  · rw [if_pos hcond] at hout
    have := Except.ok.inj hout
    rw [← this]
    exact ⟨rfl, rfl, rfl⟩
  · rw [if_neg hcond] at hout
    cases hout

/-- Whenever the pipeline body raises, `segment_image` returns the
untouched original image (the blanket `except Exception` at lines
115–119). -/
lemma segment_image_of_pipeline_error (m : Model) (s : RNG) (img : Image)
    (e : SegError) (hp : (segmentPipeline m s img).1 = .error e) :
    (segment_image (some m) s img).1 = img := by
  rw [segment_image]
  cases hsp : segmentPipeline m s img with
  | mk r s' =>
    rw [hsp] at hp
    simp only at hp
    cases r with
    | ok out => cases hp
    | error e' => rfl

/-! ## Claim theorems -/

/-- C1: for every input image, if the model is unavailable (not loaded)
or any stage of the segmentation pipeline raises, `segment_image`
returns the untouched original image rather than propagating an error;
since `segment_image` has result type `Image × RNG` (no error
component), the overall request never fails because of a segmentation
failure. -/
theorem segment_image_never_fails (model : Option Model) (s : RNG) (img : Image)
    (h : model = none ∨
      ∃ m e, model = some m ∧ (segmentPipeline m s img).1 = .error e) :
    (segment_image model s img).1 = img := by
  rcases h with h | ⟨m, e, hm, hp⟩
  · rw [h, segment_image]
  · rw [hm]
    exact segment_image_of_pipeline_error m s img e hp

/-- Witness for C1: a model whose inference raises, applied to a
concrete 1×1 image — the original comes back unchanged. -/
theorem segment_image_never_fails_witness :
    (segment_image (some failingModel) idRNG blackPx).1 = blackPx :=
  segment_image_never_fails (some failingModel) idRNG blackPx
    (Or.inr ⟨failingModel, .inferenceFailed, rfl, rfl⟩)

/-- C10: `create_colored_mask` fails exactly on a class map with no
elements — `predictions.max()` raises `ValueError` there — so the
renderer has an unstated non-emptiness precondition. -/
theorem create_colored_mask_empty_iff (s : RNG) (preds : ClassMap) :
    (create_colored_mask s preds).1 = none ↔ preds.flatten = [] := by
  constructor
  · intro h
    cases hmx : maxOfGrid preds with
    | none => exact (maxOfGrid_eq_none_iff preds).mp hmx
    | some mx =>
      rw [create_colored_mask, hmx] at h
      simp at h
  · intro h
    rw [create_colored_mask, (maxOfGrid_eq_none_iff preds).mpr h]

/-- C7: after the lazy palette extension the palette length strictly
exceeds the maximum observed class id, so every class id occurring in
the class map is a valid palette index. -/
theorem extended_palette_covers_class_ids (s : RNG) (preds : ClassMap) (mx : Nat)
    (hmx : maxOfGrid preds = some mx) :
    mx < ((extendColors mx fixedColors s).1).length ∧
    ∀ row ∈ preds, ∀ c ∈ row, c < ((extendColors mx fixedColors s).1).length := by
  have hlen := extendColors_length mx fixedColors s
  refine ⟨by omega, ?_⟩
  intro row hrow c hc
  have := maxOfGrid_le preds mx hmx row hrow c hc
  omega

/-- Witness for C7: the class map `[[25]]`, whose maximum 25 exceeds the
fixed 21-entry palette. -/
theorem extended_palette_covers_class_ids_witness :
    25 < ((extendColors 25 fixedColors idRNG).1).length ∧
    ∀ row ∈ ([[25]] : ClassMap), ∀ c ∈ row,
      c < ((extendColors 25 fixedColors idRNG).1).length :=
  extended_palette_covers_class_ids idRNG [[25]] 25 (by decide)

/-- C4: on a non-empty class map the renderer succeeds, the mask's
height and width equal the class map's height and width exactly, and
every in-bounds cell's color is the extended palette's entry at that
cell's class id. -/
theorem render_dims_and_colors (s : RNG) (preds : ClassMap)
    (hne : preds.flatten ≠ []) :
    ∃ mx mask s', maxOfGrid preds = some mx ∧
      create_colored_mask s preds = (some mask, s') ∧
      mask.length = preds.length ∧
      (∀ i, (mask.getD i []).length = (preds.getD i []).length) ∧
      ∀ i j, i < preds.length → j < (preds.getD i []).length →
        cellAt mask i j =
          ((extendColors mx fixedColors s).1).getD (classAt preds i j) (0, 0, 0) := by
  cases hmx : maxOfGrid preds with
  | none => exact absurd ((maxOfGrid_eq_none_iff preds).mp hmx) hne
  | some mx =>
    have heq := create_colored_mask_eq s preds mx hmx
    refine ⟨mx, paintLoop (extendColors mx fixedColors s).1 preds,
      (extendColors mx fixedColors s).2, rfl, heq, ?_, ?_, ?_⟩
    · exact (paintLoop_sameShape _ preds).1.symm
    · intro i
      exact ((paintLoop_sameShape _ preds).2 i).symm
    · intro i j hi hj
      exact create_colored_mask_cell s preds mx hmx _ _ heq i j hi hj

/-- Witness for C4: rendering the concrete class map `[[25]]`. -/
theorem render_dims_and_colors_witness :
    ∃ mx mask s', maxOfGrid [[25]] = some mx ∧
      create_colored_mask idRNG [[25]] = (some mask, s') ∧
      mask.length = ([[25]] : ClassMap).length ∧
      (∀ i, (mask.getD i []).length = (([[25]] : ClassMap).getD i []).length) ∧
      ∀ i j, i < ([[25]] : ClassMap).length →
        j < (([[25]] : ClassMap).getD i []).length →
        cellAt mask i j =
          ((extendColors mx fixedColors idRNG).1).getD (classAt [[25]] i j) (0, 0, 0) :=
  render_dims_and_colors idRNG [[25]] (by decide)

/-- Counterexample for C2: the extension colors are *not* cached across
calls.  The `colors` list is a fresh local list on every
`create_colored_mask` call, so two sequential calls (the second starting
from the random state the first returned, exactly as two calls in one
process share `np.random`'s state) give class id 25 two different
colors. -/
theorem extension_color_not_cached :
    cellAt (((create_colored_mask idRNG [[25]]).1).getD []) 0 0 ≠
    cellAt
      (((create_colored_mask ((create_colored_mask idRNG [[25]]).2) [[25]]).1).getD [])
      0 0 := by
  decide

/-- C2 (amended): the freshly generated color for an out-of-range class
id is consistent only *within one call* — all cells of one call that
share a class id receive the identical color; across calls nothing is
cached. -/
theorem extension_color_consistent_within_call (s : RNG) (preds : ClassMap)
    (mask : ColorGrid) (s' : RNG)
    (hcall : create_colored_mask s preds = (some mask, s'))
    (i j k l : Nat) (hi : i < preds.length) (hj : j < (preds.getD i []).length)
    (hk : k < preds.length) (hl : l < (preds.getD k []).length)
    (heq : classAt preds i j = classAt preds k l) :
    cellAt mask i j = cellAt mask k l := by
  cases hmx : maxOfGrid preds with
  | none =>
    rw [create_colored_mask, hmx] at hcall
    simp at hcall
  | some mx =>
    rw [create_colored_mask_cell s preds mx hmx mask s' hcall i j hi hj,
      create_colored_mask_cell s preds mx hmx mask s' hcall k l hk hl, heq]

/-- Witness for C2's amended theorem: both cells of the class map
`[[25, 25]]` get the same freshly generated color in one call. -/
theorem extension_color_consistent_within_call_witness :
    cellAt [[(12, 13, 14), (12, 13, 14)]] 0 0 =
    cellAt [[(12, 13, 14), (12, 13, 14)]] 0 1 :=
  extension_color_consistent_within_call idRNG [[25, 25]]
    [[(12, 13, 14), (12, 13, 14)]] (create_colored_mask idRNG [[25, 25]]).2
    (Prod.ext (by decide) rfl) 0 0 0 1
    (by decide) (by decide) (by decide) (by decide) (by decide)

/-- Counterexample for C3: with a zero-width original image and a model
that predicts normally, the resize stage does raise (`InvalidGeometry`),
but `segment_image`'s blanket handler swallows it and hands the caller
the untouched original image — the failure is silently degraded, not
surfaced. -/
theorem zero_area_failure_not_surfaced :
    (segmentPipeline bgModel idRNG zeroWidthImg).1 = .error .invalidGeometry ∧
    (segment_image (some bgModel) idRNG zeroWidthImg).1 = zeroWidthImg :=
  ⟨rfl, by decide⟩

/-- C3 (amended): the resize step fails with `InvalidGeometry` whenever
the target width or height is zero, but the failure is caught by
`segment_image`'s blanket exception handler, which returns the original
image; it is not surfaced to the caller as an explicit failure. -/
theorem resize_zero_area_fails_but_degrades (g : ColorGrid) (w h : Nat)
    (hz : w = 0 ∨ h = 0) (model : Model) (s : RNG) (img : Image) (e : SegError)
    (hp : (segmentPipeline model s img).1 = .error e) :
    cvResize g w h = .error .invalidGeometry ∧
    (segment_image (some model) s img).1 = img := by
  refine ⟨?_, segment_image_of_pipeline_error model s img e hp⟩
  rcases hz with hz | hz <;> simp [cvResize, hz]

/-- Witness for C3's amended theorem: a concrete 1×1 mask, a zero target
width, and the concrete zero-width pipeline run. -/
theorem resize_zero_area_fails_but_degrades_witness :
    cvResize [[(0, 0, 0)]] 0 2 = .error .invalidGeometry ∧
    (segment_image (some bgModel) idRNG zeroWidthImg).1 = zeroWidthImg :=
  resize_zero_area_fails_but_degrades [[(0, 0, 0)]] 0 2 (Or.inl rfl)
    bgModel idRNG zeroWidthImg .invalidGeometry rfl

/-- C5: the overlay blend computes, per pixel and per channel,
`round(original·α + mask·(1−α))` clamped to `[0, 255]`, with `α = 0.6`
(= 3/5) applied to the original image. -/
theorem overlay_blend_formula (a b : Image)
    (hwa : a.wf) (hwb : b.wf) (hba : a.bytes) (hbb : b.bytes)
    (hw : a.width = b.width) (hh : a.height = b.height)
    (hca : a.channels = 3) (hcb : b.channels = 3) :
    ∃ out, blend (3/5) a b = .ok out ∧
      out.width = a.width ∧ out.height = a.height ∧ out.channels = 3 ∧
      ∀ i j k, i < a.height → j < a.width → k < 3 →
        out.val i j k =
          (max 0 (min 255
            (round ((3/5 : ℚ) * a.val i j k + (1 - 3/5) * b.val i j k)))).toNat := by
  rw [blend, astypeU8_eq_self a hba, astypeU8_eq_self b hbb]
  have hcond : a.width = b.width ∧ a.height = b.height ∧ a.channels = b.channels := by
    exact ⟨hw, hh, by omega⟩
  cases hout : addWeighted a (3/5) b (1 - 3/5) 0 with
  | error e =>
    rw [addWeighted, if_pos hcond] at hout
    cases hout
  | ok out =>
    obtain ⟨how, hoh, hoc⟩ := addWeighted_fields a (3/5) b (1 - 3/5) 0 out hout
    refine ⟨out, rfl, how, hoh, by omega, ?_⟩
    intro i j k hi hj hk
    rw [addWeighted_val a (3/5) b (1 - 3/5) 0 hwa hwb hw hh (by omega) out hout i j k
      hi hj (by omega), satRound, add_zero]

/-- Witness for C5: blending a concrete 1×1 image pair. -/
theorem overlay_blend_formula_witness :
    ∃ out, blend (3/5) blackPx blackPx = .ok out ∧
      out.width = blackPx.width ∧ out.height = blackPx.height ∧ out.channels = 3 ∧
      ∀ i j k, i < blackPx.height → j < blackPx.width → k < 3 →
        out.val i j k =
          (max 0 (min 255
            (round ((3/5 : ℚ) * blackPx.val i j k +
              (1 - 3/5) * blackPx.val i j k)))).toNat :=
  overlay_blend_formula blackPx blackPx (by unfold Image.wf; decide)
    (by unfold Image.wf; decide) (by unfold Image.bytes; decide)
    (by unfold Image.bytes; decide) rfl rfl rfl rfl

/-- C8: with weight 1 on the first image the blend returns the first
image unchanged, and with weight 0 it returns the second image
unchanged. -/
theorem blend_alpha_one_and_zero (a b : Image)
    (hwa : a.wf) (hwb : b.wf) (hba : a.bytes) (hbb : b.bytes)
    (hw : a.width = b.width) (hh : a.height = b.height)
    (hc : a.channels = b.channels) :
    blend 1 a b = .ok a ∧ blend 0 a b = .ok b := by
  have hlen : a.data.length = b.data.length := by rw [hwa.1, hwb.1, hh]
  constructor
  · rw [blend, astypeU8_eq_self a hba, astypeU8_eq_self b hbb, addWeighted,
      if_pos ⟨hw, hh, hc⟩]
    have hdata : List.zipWith
        (fun r1 r2 => List.zipWith
          (fun p1 p2 => List.zipWith
            (fun v1 v2 : Nat => satRound (1 * v1 + (1 - 1) * v2 + 0)) p1 p2) r1 r2)
        a.data b.data = a.data := by
      apply zipWith_eq_left _ _ _ hlen
      intro r1 hr1 r2 hr2
      apply zipWith_eq_left _ _ _
        (by rw [(hwa.2 r1 hr1).1, (hwb.2 r2 hr2).1, hw])
      intro p1 hp1 p2 hp2
      apply zipWith_eq_left _ _ _
        (by rw [(hwa.2 r1 hr1).2 p1 hp1, (hwb.2 r2 hr2).2 p2 hp2, hc])
      intro v1 hv1 v2 hv2
      show satRound (1 * (v1 : ℚ) + (1 - 1) * (v2 : ℚ) + 0) = v1
      rw [one_mul, sub_self, zero_mul, add_zero, add_zero,
        satRound_natCast v1 (hba r1 hr1 p1 hp1 v1 hv1)]
    rw [hdata]
  · rw [blend, astypeU8_eq_self a hba, astypeU8_eq_self b hbb, addWeighted,
      if_pos ⟨hw, hh, hc⟩]
    have hdata : List.zipWith
        (fun r1 r2 => List.zipWith
          (fun p1 p2 => List.zipWith
            (fun v1 v2 : Nat => satRound (0 * v1 + (1 - 0) * v2 + 0)) p1 p2) r1 r2)
        a.data b.data = b.data := by
      apply zipWith_eq_right _ _ _ hlen
      intro r1 hr1 r2 hr2
      apply zipWith_eq_right _ _ _
        (by rw [(hwa.2 r1 hr1).1, (hwb.2 r2 hr2).1, hw])
      intro p1 hp1 p2 hp2
      apply zipWith_eq_right _ _ _
        (by rw [(hwa.2 r1 hr1).2 p1 hp1, (hwb.2 r2 hr2).2 p2 hp2, hc])
      intro v1 hv1 v2 hv2
      show satRound (0 * (v1 : ℚ) + (1 - 0) * (v2 : ℚ) + 0) = v2
      rw [zero_mul, sub_zero, one_mul, zero_add, add_zero,
        satRound_natCast v2 (hbb r2 hr2 p2 hp2 v2 hv2)]
    rw [hdata, hw, hh, hc]

/-- Witness for C8: two distinct concrete 1×1 images. -/
theorem blend_alpha_one_and_zero_witness :
    blend 1 blackPx ⟨1, 1, 3, [[[255, 17, 3]]]⟩ = .ok blackPx ∧
    blend 0 blackPx ⟨1, 1, 3, [[[255, 17, 3]]]⟩ = .ok ⟨1, 1, 3, [[[255, 17, 3]]]⟩ :=
  blend_alpha_one_and_zero blackPx ⟨1, 1, 3, [[[255, 17, 3]]]⟩
    (by unfold Image.wf; decide) (by unfold Image.wf; decide)
    (by unfold Image.bytes; decide) (by unfold Image.bytes; decide) rfl rfl rfl

/-- C6: channel normalization replicates a 1-channel image's value into
three identical channels, drops the 4th channel of a 4-channel image
while preserving the RGB values exactly, and passes a 3-channel image
through unchanged. -/
theorem normalizeChannels_spec (img : Image) (hwf : img.wf) :
    (img.channels = 1 →
      (normalizeChannels img).channels = 3 ∧
      (normalizeChannels img).width = img.width ∧
      (normalizeChannels img).height = img.height ∧
      ∀ i j, i < img.height → j < img.width →
        (normalizeChannels img).pix i j =
          [img.val i j 0, img.val i j 0, img.val i j 0]) ∧
    (img.channels = 4 →
      (normalizeChannels img).channels = 3 ∧
      (normalizeChannels img).width = img.width ∧
      (normalizeChannels img).height = img.height ∧
      ∀ i j, i < img.height → j < img.width →
        ((normalizeChannels img).pix i j).length = 3 ∧
        (normalizeChannels img).pix i j = (img.pix i j).take 3) ∧
    (img.channels = 3 → normalizeChannels img = img) := by
  refine ⟨?_, ?_, ?_⟩
  · intro hc
    rw [normalizeChannels, if_pos hc]
    refine ⟨rfl, rfl, rfl, ?_⟩
    intro i j hi hj
    have hid : i < img.data.length := by rw [hwf.1]; omega
    have hjd : j < (img.data.getD i []).length := by
      rw [Image.wf_row_length hwf i hi]; omega
    rw [Image.pix]
    simp only
    rw [getD_map _ _ i hid _ [], getD_map _ _ j hjd _ [], Image.val,
      headD_eq_getD_zero]
  · intro hc
    rw [normalizeChannels, if_neg (by omega), if_pos hc]
    refine ⟨rfl, rfl, rfl, ?_⟩
    intro i j hi hj
    have hid : i < img.data.length := by rw [hwf.1]; omega
    have hjd : j < (img.data.getD i []).length := by
      rw [Image.wf_row_length hwf i hi]; omega
    rw [Image.pix]
    simp only
    rw [getD_map _ _ i hid _ [], getD_map _ _ j hjd _ []]
    refine ⟨?_, rfl⟩
    rw [List.length_take, Image.wf_px_length hwf i j hi hj, hc]
    decide
  · intro hc
    rw [normalizeChannels, if_neg (by omega), if_neg (by omega)]

/-- Witness for C6: a concrete 2×1 grayscale image. -/
theorem normalizeChannels_spec_witness :
    ((⟨2, 1, 1, [[[7], [9]]]⟩ : Image).channels = 1 →
      (normalizeChannels ⟨2, 1, 1, [[[7], [9]]]⟩).channels = 3 ∧
      (normalizeChannels ⟨2, 1, 1, [[[7], [9]]]⟩).width =
        (⟨2, 1, 1, [[[7], [9]]]⟩ : Image).width ∧
      (normalizeChannels ⟨2, 1, 1, [[[7], [9]]]⟩).height =
        (⟨2, 1, 1, [[[7], [9]]]⟩ : Image).height ∧
      ∀ i j, i < (⟨2, 1, 1, [[[7], [9]]]⟩ : Image).height →
        j < (⟨2, 1, 1, [[[7], [9]]]⟩ : Image).width →
        (normalizeChannels ⟨2, 1, 1, [[[7], [9]]]⟩).pix i j =
          [(⟨2, 1, 1, [[[7], [9]]]⟩ : Image).val i j 0,
           (⟨2, 1, 1, [[[7], [9]]]⟩ : Image).val i j 0,
           (⟨2, 1, 1, [[[7], [9]]]⟩ : Image).val i j 0]) ∧
    ((⟨2, 1, 1, [[[7], [9]]]⟩ : Image).channels = 4 →
      (normalizeChannels ⟨2, 1, 1, [[[7], [9]]]⟩).channels = 3 ∧
      (normalizeChannels ⟨2, 1, 1, [[[7], [9]]]⟩).width =
        (⟨2, 1, 1, [[[7], [9]]]⟩ : Image).width ∧
      (normalizeChannels ⟨2, 1, 1, [[[7], [9]]]⟩).height =
        (⟨2, 1, 1, [[[7], [9]]]⟩ : Image).height ∧
      ∀ i j, i < (⟨2, 1, 1, [[[7], [9]]]⟩ : Image).height →
        j < (⟨2, 1, 1, [[[7], [9]]]⟩ : Image).width →
        ((normalizeChannels ⟨2, 1, 1, [[[7], [9]]]⟩).pix i j).length = 3 ∧
        (normalizeChannels ⟨2, 1, 1, [[[7], [9]]]⟩).pix i j =
          ((⟨2, 1, 1, [[[7], [9]]]⟩ : Image).pix i j).take 3) ∧
    ((⟨2, 1, 1, [[[7], [9]]]⟩ : Image).channels = 3 →
      normalizeChannels ⟨2, 1, 1, [[[7], [9]]]⟩ = ⟨2, 1, 1, [[[7], [9]]]⟩) :=
  normalizeChannels_spec ⟨2, 1, 1, [[[7], [9]]]⟩ (by unfold Image.wf; decide)

/-- Counterexample for C9: a freshly generated palette-extension channel
can never be 255 — `np.random.randint(0, 255)` has an exclusive upper
bound, so no random state produces a red channel of 255. -/
theorem extension_channel_never_255 : ¬ ∃ s : RNG, (drawColor s).1.1 = 255 := by
  rintro ⟨s, h⟩
  simp only [drawColor, npRandint] at h
  omega

/-- C9 (amended): every freshly generated channel value lies in
`[0, 254]` (in particular inside `[0, 255]`), and every triple of values
in `[0, 254]` — but never 255 — is a possible outcome of the three
independent draws. -/
theorem extension_channels_range (s : RNG) (r g b : Nat)
    (hr : r < 255) (hg : g < 255) (hb : b < 255) :
    ((drawColor s).1.1 < 255 ∧ (drawColor s).1.2.1 < 255 ∧
      (drawColor s).1.2.2 < 255) ∧
    ∃ t : RNG, (drawColor t).1 = (r, g, b) := by
  constructor
  · refine ⟨?_, ?_, ?_⟩ <;> simp only [drawColor, npRandint] <;> omega
  · refine ⟨fun n => if n = 0 then r else if n = 1 then g else b, ?_⟩
    simp only [drawColor, npRandint, RNG.next]
    norm_num [Nat.mod_eq_of_lt hr, Nat.mod_eq_of_lt hg, Nat.mod_eq_of_lt hb]

/-- Witness for C9's amended theorem: the triple `(0, 100, 254)` —
including the extreme attainable value 254 — is a possible draw. -/
theorem extension_channels_range_witness :
    ((drawColor idRNG).1.1 < 255 ∧ (drawColor idRNG).1.2.1 < 255 ∧
      (drawColor idRNG).1.2.2 < 255) ∧
    ∃ t : RNG, (drawColor t).1 = (0, 100, 254) :=
  extension_channels_range idRNG 0 100 254 (by decide) (by decide) (by decide)

end Seg
